import Mathlib

/-!
Verification development for the StockTool plugin host and its data pipeline.

Shallow embedding of the Python sources:
  * `stocktool.py`        — host: plugin discovery, toggling, fetch cycle, broadcast
  * `modules/livetracker.py` — ChangeComputer: equity / crypto change bases, rendering
  * `modules/news_ticker.py` — FeedAggregator: dedup, symbol detection, batch quotes

Numeric values that are Python floats are modelled as `ℚ` (an idealisation:
the float NaN/Inf cases handled in `_paint_change` have no `ℚ` counterpart and
are noted where relevant).  Python `None` becomes `Option`.  Dicts that are
built key-by-key in insertion order become association lists.
-/

namespace StockTool

/-! ### ChangeComputer — modules/livetracker.py, `_fetch_prices_combo`

Per-symbol daily metadata as stored in `daily_meta[sym]` (the fields the
change computation reads).  `inst` is stored already upper-cased, exactly as
`(meta.get("instrumentType") or "").upper()` does at parse time. -/

structure SymMeta where
  inst : String
  price : Option ℚ
  prevClose : Option ℚ
deriving DecidableEq

/-- Asset classification, from
`is_crypto = (inst == "CRYPTOCURRENCY") or sym.endswith("-USD")`
(`inst` is the upper-cased stored tag). -/
def isCrypto (meta : SymMeta) (sym : String) : Bool :=
  meta.inst == "CRYPTOCURRENCY" || List.isSuffixOf "-USD".data sym.data

/-- Scan of `zip(ts, closes)` in the crypto branch: skip bars with a missing
close (`if cval is None: continue`), return the first close whose timestamp is
at or after `midnight_utc` (`if int(tval) >= midnight_utc: midnight_px = cval; break`). -/
def firstBarAtOrAfter (midnightUtc : Int) : List (Int × Option ℚ) → Option ℚ
  | [] => none
  | (t, c) :: rest =>
    match c with
    | none => firstBarAtOrAfter midnightUtc rest
    | some cv => if midnightUtc ≤ t then some cv else firstBarAtOrAfter midnightUtc rest

/-- Latest-price fallback: `latest_px = base price; if latest_px is None and
closes: last = closes[-1]; if last is not None: latest_px = float(last)`. -/
def latestPx (basePrice : Option ℚ) (closes : List (Option ℚ)) : Option ℚ :=
  match basePrice with
  | some p => some p
  | none =>
    match closes.getLast? with
    | some (some c) => some c
    | _ => none

/-- Intraday fetch result for the crypto branch: `none` models a failed
`_safe_chart_json` (or empty `result`), otherwise the `timestamp` and
`close` arrays of the first result node. -/
def cryptoRefPx (bars : Option (List Int × List (Option ℚ))) (midnightUtc : Int) : Option ℚ :=
  match bars with
  | none => none
  | some (ts, closes) => firstBarAtOrAfter midnightUtc (ts.zip closes)

def cryptoLatestPx (basePrice : Option ℚ) (bars : Option (List Int × List (Option ℚ))) : Option ℚ :=
  match bars with
  | none => basePrice
  | some (_, closes) => latestPx basePrice closes

/-- Crypto branch of `_fetch_prices_combo`: returns (price, chg, pct).
`chg = pct = None` unless the midnight reference and latest price are both
present and the reference is non-zero. -/
def computeCrypto (basePrice : Option ℚ) (bars : Option (List Int × List (Option ℚ)))
    (midnightUtc : Int) : Option ℚ × Option ℚ × Option ℚ :=
  match cryptoRefPx bars midnightUtc, cryptoLatestPx basePrice bars with
  | some m, some l =>
    if m ≠ 0 then (some l, some (l - m), some ((l - m) / m * 100))
    else (some l, none, none)
  | _, l => (l, none, none)

/-- Equity branch: `if price is not None and prev_close not in (None, 0):
chg = price - prev_close; pct = (chg / prev_close) * 100.0`, else both None. -/
def computeEquity (price prevClose : Option ℚ) : Option ℚ × Option ℚ :=
  match price, prevClose with
  | some p, some q =>
    if q ≠ 0 then (some (p - q), some ((p - q) / q * 100))
    else (none, none)
  | _, _ => (none, none)

structure Quote where
  isCryptoQ : Bool
  price : Option ℚ
  chg : Option ℚ
  pct : Option ℚ
  basis : String
deriving DecidableEq

/-- Per-symbol quote computation of `_fetch_prices_combo` (lines 246–317),
branching on the asset class. -/
def computeQuote (sym : String) (base : SymMeta) (bars : Option (List Int × List (Option ℚ)))
    (midnightUtc : Int) : Quote :=
  if isCrypto base sym then
    let r := computeCrypto base.price bars midnightUtc
    { isCryptoQ := true, price := r.1, chg := r.2.1, pct := r.2.2
      basis := "since_local_midnight" }
  else
    let r := computeEquity base.price base.prevClose
    { isCryptoQ := false, price := base.price, chg := r.1, pct := r.2
      basis := "prev_close" }

/-- Request window of the 1-minute crypto fetch:
`YA_CHART_1M.format(symbol=sym, p1=midnight_utc - 300, p2=now_ts)`. -/
def cryptoRequestWindow (midnightUtc nowTs : Int) : Int × Int :=
  (midnightUtc - 300, nowTs)

/-! ### Rendering of change values — `_paint_change` in livetracker.py

Python renders `f"{abs(val):,.2f}"`: two decimals with thousands separators.
Decimal digit and grouping helpers are written structurally so witnesses can
be checked by kernel evaluation. Rounding is modelled half-to-even on `ℚ`
(Python's float formatting rounds half to even on the binary value). -/

def natToRevDigits : Nat → Nat → List Char
  | 0, _ => []
  | fuel + 1, n => if n = 0 then [] else Char.ofNat (48 + n % 10) :: natToRevDigits fuel (n / 10)

def natToStr (n : Nat) : List Char :=
  if n = 0 then ['0'] else (natToRevDigits (n + 1) n).reverse

/-- Insert a thousands separator after every third digit, operating on the
reversed digit list (`k` counts digits already emitted plus one). -/
def group3Aux : Nat → List Char → List Char
  | _, [] => []
  | k, c :: rest =>
    if k % 3 = 0 ∧ rest ≠ [] then c :: ',' :: group3Aux (k + 1) rest
    else c :: group3Aux (k + 1) rest

def withCommas (digs : List Char) : List Char :=
  (group3Aux 1 digs.reverse).reverse

/-- Round half to even. -/
def roundHE (q : ℚ) : Int :=
  let f := ⌊q⌋
  if q - f < 1 / 2 then f
  else if q - f > 1 / 2 then f + 1
  else if f % 2 = 0 then f else f + 1

/-- Model of `f"{v:,.2f}"` for a non-negative value. -/
def fmtComma2 (v : ℚ) : String :=
  let cents := (roundHE (v * 100)).toNat
  String.mk (withCommas (natToStr (cents / 100)) ++
    ['.', Char.ofNat (48 + cents / 10 % 10), Char.ofNat (48 + cents % 10)])

/-- Inner `paint` of `_paint_change`: a missing value (and, in the source, a
float NaN/Inf, which `ℚ` cannot represent) renders as an em-dash; otherwise an
up/down arrow plus `f"{abs(val):,.2f}"` and the suffix (`"%"` for the percent
column, `""` for the change column). -/
def paintText (val : Option ℚ) (suffix : String) : String :=
  match val with
  | none => "—"
  | some v =>
    (if 0 ≤ v then "▲" else "▼") ++ " " ++ fmtComma2 |v| ++ suffix

/-! ### String helpers

Python's `str.upper`, `str.strip`, `str.split(",")` and `int(...)` modelled
structurally over `List Char` (ASCII inputs; Python additionally handles
some Unicode whitespace and digits). -/

def strUpper (s : String) : String :=
  String.mk (s.data.map Char.toUpper)

def trimChars (l : List Char) : List Char :=
  ((l.dropWhile Char.isWhitespace).reverse.dropWhile Char.isWhitespace).reverse

def strTrim (s : String) : String :=
  String.mk (trimChars s.data)

def splitCommaAux : List Char → List Char → List String
  | cur, [] => [String.mk cur.reverse]
  | cur, c :: rest =>
    if c = ',' then String.mk cur.reverse :: splitCommaAux [] rest
    else splitCommaAux (c :: cur) rest

def splitComma (s : String) : List String :=
  splitCommaAux [] s.data

def digitsToNat : Nat → List Char → Option Nat
  | acc, [] => some acc
  | acc, c :: rest =>
    if c.isDigit then digitsToNat (acc * 10 + (c.toNat - 48)) rest else none

/-- Model of Python `int(text)` for an already-stripped decimal string. -/
def parseIntStr (s : String) : Option Int :=
  match s.data with
  | [] => none
  | '-' :: rest =>
    if rest = [] then none else (digitsToNat 0 rest).map (fun n => -(n : Int))
  | '+' :: rest =>
    if rest = [] then none else (digitsToNat 0 rest).map (fun n => (n : Int))
  | l => (digitsToNat 0 l).map (fun n => (n : Int))

/-! ### News batch quotes — `_yahoo_prices` in news_ticker.py -/

structure RawQuote where
  symbol : String
  price : Option ℚ
  openPx : Option ℚ
  chg : Option ℚ
  chgPct : Option ℚ
  currency : String
deriving DecidableEq

structure PriceInfo where
  price : ℚ
  openPx : ℚ
  up : Bool
  chg : ℚ
  chgPct : ℚ
  currency : String
deriving DecidableEq

/-! ### Host state — stocktool.py `StockTool`

`Bar` is one row built by `_fetch_single` (rows with a missing open or close
are dropped there, so both fields are total).  A plugin instance is summarised
by the behaviour of its lifecycle callbacks (whether they raise); observable
effects of the host are recorded as an event trace. -/

structure Bar where
  date : String
  openPx : ℚ
  closePx : ℚ
deriving DecidableEq

structure Plugin where
  onEnableThrows : Bool
  onDataThrows : Bool
deriving DecidableEq

/-- One `module_specs` entry: display metadata plus the factory behaviour. -/
structure MSpec where
  name : String
  desc : String
  ctorThrows : Bool
  plugin : Plugin
deriving DecidableEq

inductive Event where
  | constructed (mid : String)
  | onEnable (mid : String)
  | onData (mid : String) (data : List (String × List Bar)) (tickers : List String)
  | onDisable (mid : String)
  | logError (mid : String)
  | saveSettings (enabledModules : List String)
  | statusMsg (loaded failed : List String)
  | inputError
deriving DecidableEq

/-- Host state: `module_specs`, `settings["enabled_modules"]`,
`loaded_modules` (a dict in insertion order), `data_by_symbol` and `tickers`. -/
structure Host where
  moduleSpecs : List (String × MSpec)
  enabledModules : List String
  loadedModules : List (String × Plugin)
  dataBySymbol : List (String × List Bar)
  tickers : List String
deriving DecidableEq

/-- Insertion sort used to model Python `sorted(enabled)` on strings. -/
def insertSorted (x : String) : List String → List String
  | [] => [x]
  | y :: ys => if x < y then x :: y :: ys else y :: insertSorted x ys

def sortStrings (l : List String) : List String :=
  l.foldr insertSorted []

/-- `_instantiate_module` (lines 631–646): a no-op when an instance for the id
is already live or the id has no spec; otherwise one instance is constructed
(a throwing constructor is caught and logged), registered in `loaded_modules`
(before `on_enable` runs, exactly as in the source), its `on_enable` called,
and — when a dataset exists — the last dataset replayed via `on_data`; any
callback exception is caught by the same `except` and logged. -/
def instantiateModule (h : Host) (mid : String) : Host × List Event :=
  if (h.loadedModules.lookup mid).isSome then (h, [])
  else
    match h.moduleSpecs.lookup mid with
    | none => (h, [])
    | some spec =>
      if spec.ctorThrows then (h, [.logError mid])
      else
        let h1 := { h with loadedModules := h.loadedModules ++ [(mid, spec.plugin)] }
        if spec.plugin.onEnableThrows then
          (h1, [.constructed mid, .onEnable mid, .logError mid])
        else if h.dataBySymbol ≠ [] then
          if spec.plugin.onDataThrows then
            (h1, [.constructed mid, .onEnable mid,
              .onData mid h.dataBySymbol h.tickers, .logError mid])
          else
            (h1, [.constructed mid, .onEnable mid, .onData mid h.dataBySymbol h.tickers])
        else (h1, [.constructed mid, .onEnable mid])

/-- `_remove_module_widget` (lines 648–656): pop the instance if present, call
`on_disable` (exceptions swallowed by `except: pass`), release the widget. -/
def removeModuleWidget (h : Host) (mid : String) : Host × List Event :=
  match h.loadedModules.lookup mid with
  | none => (h, [])
  | some _ =>
    ({ h with loadedModules := h.loadedModules.filter (fun p => p.1 ≠ mid) },
      [.onDisable mid])

/-- `_toggle_module` (lines 617–629): membership in the persisted enabled set
gates instantiation/removal; the sorted enabled set is re-persisted after
every toggle (`save_settings` at the end). -/
def toggleModule (h : Host) (mid : String) (enable : Bool) : Host × List Event :=
  let r : Host × List Event × List String :=
    if enable then
      if mid ∈ h.enabledModules then (h, [], h.enabledModules)
      else
        let p := instantiateModule h mid
        (p.1, p.2, h.enabledModules ++ [mid])
    else
      if mid ∈ h.enabledModules then
        let p := removeModuleWidget h mid
        (p.1, p.2, h.enabledModules.filter (fun x => x ≠ mid))
      else (h, [], h.enabledModules)
  let sortedEnabled := sortStrings r.2.2
  ({ r.1 with enabledModules := sortedEnabled }, r.2.1 ++ [.saveSettings sortedEnabled])

/-- `_notify_modules` (lines 728–733): every loaded instance, in registration
order, receives `on_data(self.data_by_symbol, self.tickers)`; a raising
callback is caught and logged and the loop continues. -/
def notifyModules (h : Host) : List Event :=
  h.loadedModules.flatMap
    (fun p =>
      if p.2.onDataThrows then
        [.onData p.1 h.dataBySymbol h.tickers, .logError p.1]
      else
        [.onData p.1 h.dataBySymbol h.tickers])

/-- Data deliveries appearing in an event trace, in order. -/
def onDataEvents : List Event → List (String × List (String × List Bar) × List String)
  | [] => []
  | .onData m d t :: rest => (m, d, t) :: onDataEvents rest
  | _ :: rest => onDataEvents rest

/-! ### Fetch cycle — stocktool.py `on_fetch` and `_fetch_single` -/

/-- Ticker normalisation of `on_fetch` (lines 668–678): split on commas, strip
each piece, drop empties, uppercase, deduplicate keeping first-occurrence
order. -/
def dedupUpper (seen : List String) : List String → List String
  | [] => []
  | t :: rest =>
    let u := strUpper t
    if u ∈ seen then dedupUpper seen rest
    else u :: dedupUpper (u :: seen) rest

def normalizeTickers (raw : String) : List String :=
  dedupUpper [] (((splitComma (strTrim raw)).map strTrim).filter (fun t => t ≠ ""))

/-- One fetch cycle (lines 667–726), parameterised by the remote: `remote s =
none` models `_fetch_single` raising for symbol `s` (network error, Yahoo
error payload, empty result), `some rows` a successful row list.  Validation
errors (unparsable or non-positive days, empty ticker list) set an error
status and return before any fetch.  A failed symbol goes to `failed` only; a
successful symbol enters `data_by_symbol` only when its row list is non-empty
(`if rows:`); `tickers` keeps the normalised order restricted to fetched
symbols; finally the status is set and `_notify_modules` runs.  The loop body
`try: rows = _fetch_single(sym, days); if rows: data_by_symbol[sym] = rows;
except ...: failed.append(...)` is `fetchEntry`. -/
def fetchEntry (remote : String → Option (List Bar)) (s : String) :
    Option (String × List Bar) :=
  match remote s with
  | some rows => if rows = [] then none else some (s, rows)
  | none => none

def onFetch (h : Host) (raw daysText : String) (remote : String → Option (List Bar)) :
    Host × List Event :=
  let ordered := normalizeTickers raw
  match parseIntStr (strTrim daysText) with
  | none => (h, [.inputError])
  | some days =>
    if days ≤ 0 then (h, [.inputError])
    else if ordered = [] then (h, [.inputError])
    else
      let data := ordered.filterMap (fetchEntry remote)
      let failed := ordered.filter (fun s => remote s = none)
      let tickers := ordered.filter (fun s => (data.lookup s).isSome)
      let h1 := { h with dataBySymbol := data, tickers := tickers }
      (h1, .statusMsg tickers failed :: notifyModules h1)

/-! ### Plugin discovery — stocktool.py `_discover_modules`

A candidate module file ("unit") either raises during
load/exec/instantiation (caught by the per-unit `except`, which logs the
error), yields no import spec (silent `continue`), or loads with a list of
inspected attributes.  Each inspected attribute is summarised by whether it
qualifies (`isinstance(obj, type) and issubclass(obj, BaseModule) and obj is
not BaseModule`), whether its constructor raises, and its identity fields
(`""` models a falsy `MODULE_ID`/`MODULE_NAME`, i.e. missing or empty). -/

structure Cand where
  qualifies : Bool
  ctorThrows : Bool
  mid : String
  mname : String
  mdesc : String
deriving DecidableEq

inductive UnitLoad where
  | raises
  | noSpec
  | ok (classes : List Cand)
deriving DecidableEq

structure Desc where
  mid : String
  name : String
  desc : String
deriving DecidableEq

/-- Outcome of one loop body of `_discover_modules` for one unit:
(the registered descriptor, if any; whether a load-error log line was printed).
The loop takes the FIRST qualifying class (`break`), instantiates it (a
constructor exception lands in the same `except` and is logged), and silently
skips units with no qualifying class or with a falsy id or name. -/
def discoverUnit : UnitLoad → Option Desc × Bool
  | .raises => (none, true)
  | .noSpec => (none, false)
  | .ok classes =>
    match classes.find? (fun c => c.qualifies) with
    | none => (none, false)
    | some c =>
      if c.ctorThrows then (none, true)
      else if c.mid = "" ∨ c.mname = "" then (none, false)
      else (some ⟨c.mid, c.mname, c.mdesc⟩, false)

/-- `self.module_specs[m_id] = {...}`: Python dict insertion — overwrite in
place if the id exists, else append. -/
def upsertSpec (specs : List Desc) (d : Desc) : List Desc :=
  if specs.any (fun e => e.mid == d.mid)
  then specs.map (fun e => if e.mid == d.mid then d else e)
  else specs ++ [d]

/-- Registered descriptors after a discovery pass over a unit list. -/
def discoverDescs (units : List UnitLoad) : List Desc :=
  units.foldl
    (fun acc u =>
      match (discoverUnit u).1 with
      | some d => upsertSpec acc d
      | none => acc)
    []

/-- Number of per-unit load-error log lines printed during the pass. -/
def discoverLogCount (units : List UnitLoad) : Nat :=
  (units.filter (fun u => (discoverUnit u).2)).length

/-! ### FeedAggregator symbol detection — news_ticker.py `_guess_symbol`

The four `_SYM_PATTERNS` regexes are modelled as structural scanners over
`List Char` with Python `re` leftmost-match / backtracking semantics:
  1. cashtag: dollar sign, 1–5 uppercase letters, negative lookahead for a letter;
  2. parenthesized: open paren, 1–5 uppercase letters, close paren;
  3. exchange: word boundary, one of NASDAQ/NYSE/AMEX/LSE/TSX, one or more of
     colon/whitespace/hyphen, 1–5 uppercase letters, word boundary;
  4. findall of bare 1–5-uppercase-letter words between word boundaries,
     stopword-filtered, first survivor.
Backtracking analysis (a greedy 1–5-letter class can only succeed on the whole
maximal uppercase run, since shortening it puts an uppercase letter right
after the group, failing the follower) justifies the maximal-run encoding.
`.upper()` on a captured group of uppercase letters is the identity and is
therefore omitted. Python `\w`/`\s` are modelled at their ASCII core
(titles are ASCII in all headline sources). -/

def isWordChar (c : Char) : Bool := c.isAlpha || c.isDigit || c == '_'

def isSepChar (c : Char) : Bool := c == ':' || c.isWhitespace || c == '-'

def headNotLetter : List Char → Bool
  | [] => true
  | c :: _ => !c.isAlpha

def headNotWord : List Char → Bool
  | [] => true
  | c :: _ => !(isWordChar c)

def cashtagAt : List Char → Option (List Char)
  | '$' :: rest =>
    let run := rest.takeWhile Char.isUpper
    if 1 ≤ run.length ∧ run.length ≤ 5 ∧ headNotLetter (rest.drop run.length) = true
    then some run else none
  | _ => none

def parenAt : List Char → Option (List Char)
  | '(' :: rest =>
    let run := rest.takeWhile Char.isUpper
    if 1 ≤ run.length ∧ run.length ≤ 5 then
      match rest.drop run.length with
      | ')' :: _ => some run
      | _ => none
    else none
  | _ => none

def exchanges : List (List Char) :=
  ["NASDAQ".data, "NYSE".data, "AMEX".data, "LSE".data, "TSX".data]

def exchAt (l : List Char) : Option (List Char) :=
  match exchanges.find? (fun e => List.isPrefixOf e l) with
  | none => none
  | some e =>
    let rest := l.drop e.length
    let sep := rest.takeWhile isSepChar
    if sep.length = 0 then none
    else
      let rest2 := rest.drop sep.length
      let run := rest2.takeWhile Char.isUpper
      if 1 ≤ run.length ∧ run.length ≤ 5 ∧ headNotWord (rest2.drop run.length) = true
      then some run else none

def searchCashtag : List Char → Option (List Char)
  | [] => none
  | c :: rest =>
    match cashtagAt (c :: rest) with
    | some r => some r
    | none => searchCashtag rest

def searchParen : List Char → Option (List Char)
  | [] => none
  | c :: rest =>
    match parenAt (c :: rest) with
    | some r => some r
    | none => searchParen rest

def searchExchAux : Bool → List Char → Option (List Char)
  | _, [] => none
  | atB, c :: rest =>
    match (if atB then exchAt (c :: rest) else none) with
    | some r => some r
    | none => searchExchAux (!(isWordChar c)) rest

def searchExch (l : List Char) : Option (List Char) :=
  searchExchAux true l

/-- Maximal word-character runs of a title, in order; a bare-caps candidate of
pattern 4 is such a run that consists of 1–5 uppercase letters. -/
def wordRunsAux : List Char → List Char → List (List Char)
  | cur, [] => if cur = [] then [] else [cur.reverse]
  | cur, c :: rest =>
    if isWordChar c then wordRunsAux (c :: cur) rest
    else if cur = [] then wordRunsAux [] rest
    else cur.reverse :: wordRunsAux [] rest

def wordRuns (l : List Char) : List (List Char) :=
  wordRunsAux [] l

def isCapsToken (w : List Char) : Bool :=
  w.all Char.isUpper && decide (1 ≤ w.length) && decide (w.length ≤ 5)

/-- The fixed `_STOPWORDS` set. -/
def STOPWORDS : List String :=
  ["THE", "AND", "FOR", "WITH", "FROM", "THIS", "WALL", "STREET", "CNBC", "MARKET", "NEWS",
   "FED", "ECB", "BOE", "OPEC", "GDP", "CPI", "PPI", "EPS", "ETF", "IPO", "AI", "USA", "US",
   "MORE", "LIVE", "DAILY", "TODAY", "BREAKING", "UPDATE", "UPDATES", "TOP", "OF", "IN"]

/-- Pattern 4 fallback: `words = re.findall(...); words = [w for w in words if
w.upper() not in STOPWORDS]; return words[0].upper() if words else None`. -/
def fallbackCaps (l : List Char) : Option String :=
  let ws := ((wordRuns l).filter isCapsToken).map (fun w => String.mk w)
  match ws.filter (fun w => !(STOPWORDS.contains w)) with
  | [] => none
  | w :: _ => some w

/-- `_guess_symbol`: the first three patterns are tried in order with
`pat.search`, stopping at the first match; then the all-caps fallback. -/
def guessSymbol (title : String) : Option String :=
  match searchCashtag title.data with
  | some r => some (String.mk r)
  | none =>
    match searchParen title.data with
    | some r => some (String.mk r)
    | none =>
      match searchExch title.data with
      | some r => some (String.mk r)
      | none => fallbackCaps title.data

/-! ### FeedAggregator dedup — news_ticker.py `_refresh_worker` and `_merge_items_ui` -/

structure Article where
  title : String
  link : String
deriving DecidableEq

/-- Within-cycle dedup key:
`key = (it.get("title","").strip(), it.get("link","").strip())`. -/
def articleKey (a : Article) : String × String :=
  (strTrim a.title, strTrim a.link)

/-- Within-cycle dedup loop of `_refresh_worker` (lines 233–241): keep the
first article for each (title, link) key, tracked in a local `seen` set. -/
def dedupArticles (seen : List (String × String)) : List Article → List Article
  | [] => []
  | a :: rest =>
    if articleKey a ∈ seen then dedupArticles seen rest
    else a :: dedupArticles (articleKey a :: seen) rest

structure NewsItem where
  title : String
  link : String
  symbol : Option String
deriving DecidableEq

/-- `_attach_symbols`: each article gets the detected symbol of its title. -/
def attachSymbols (l : List Article) : List NewsItem :=
  l.map (fun a => { title := a.title, link := a.link, symbol := guessSymbol a.title })

/-- Cross-cycle dedup key of `_merge_items_ui`:
`sym = (it.get("symbol") or "").strip(); key = (title, link, sym)`
(both Python `None` and `""` give the empty symbol component). -/
def itemKey (it : NewsItem) : String × String × String :=
  (strTrim it.title, strTrim it.link, strTrim (it.symbol.getD ""))

structure TickerState where
  seenKeys : List (String × String × String)
  items : List NewsItem
deriving DecidableEq

/-- `_merge_items_ui` (lines 364–392): an item whose key is already in the
permanent seen-set is skipped; otherwise the key is added and the item
appended. (The Python early-return on an empty `fresh` list only skips the
widget update; the state effect of the loop over `[]` is identical.) -/
def mergeItemsUI (st : TickerState) (fresh : List NewsItem) : TickerState :=
  fresh.foldl
    (fun s it =>
      if itemKey it ∈ s.seenKeys then s
      else { seenKeys := itemKey it :: s.seenKeys, items := s.items ++ [it] })
    st

/-- Number of produced items carrying a given within-cycle (title, link) key. -/
def countTLKey (k : String × String) (l : List NewsItem) : Nat :=
  (l.filter (fun it => (strTrim it.title, strTrim it.link) = k)).length

/-- Number of stored items carrying a given cross-cycle key. -/
def countItemKey (k : String × String × String) (l : List NewsItem) : Nat :=
  (l.filter (fun it => itemKey it = k)).length

/-- Per-entry processing of a `quoteResponse.result` element (lines 337–358):
entries with an empty symbol or missing price/open are skipped; a missing
change falls back to `price - open`; a missing change-percent is computed from
open only when open is truthy (non-zero), and otherwise — the
`float(chgPct if chgPct is not None else 0.0)` default — becomes `0.0`. -/
def parseRawQuote (q : RawQuote) : Option (String × PriceInfo) :=
  let sym := strUpper q.symbol
  match q.price, q.openPx with
  | some price, some opn =>
    if sym = "" then none
    else
      let chg := match q.chg with
        | some c => c
        | none => price - opn
      let chgPct : Option ℚ := match q.chgPct with
        | some c => some c
        | none => if opn ≠ 0 then some ((price - opn) / opn * 100) else none
      let up : Bool := decide (0 ≤ chg)
      some (sym,
        { price := price, openPx := opn, up := up, chg := chg,
          chgPct := chgPct.getD 0, currency := q.currency })
  | _, _ => none

end StockTool

namespace StockTool

/-! ### Theorems for claims C1 and C2 -/

/-- Claim C1: for every symbol not classified as crypto, the computed quote has
`change = price − prevClose` and `changePercent = change / prevClose × 100`
whenever both `price` and a non-zero `prevClose` are present; whenever
`prevClose` is absent or zero, or `price` is absent, both `change` and
`changePercent` are `none` (the explicit unavailable value), never zero. -/
theorem equity_change_basis (sym : String) (m : SymMeta)
    (bars : Option (List Int × List (Option ℚ))) (mid : Int)
    (hne : isCrypto m sym = false) :
    (∀ p q, m.price = some p → m.prevClose = some q → q ≠ 0 →
      (computeQuote sym m bars mid).chg = some (p - q) ∧
      (computeQuote sym m bars mid).pct = some ((p - q) / q * 100)) ∧
    ((m.price = none ∨ m.prevClose = none ∨ m.prevClose = some 0) →
      (computeQuote sym m bars mid).chg = none ∧
      (computeQuote sym m bars mid).pct = none) := by
  constructor
  · intro p q hp hq hq0
    simp [computeQuote, hne, computeEquity, hp, hq, hq0]
  · intro h
    rcases h with h | h | h
    · cases hq : m.prevClose <;> simp [computeQuote, hne, computeEquity, h, hq]
    · cases hp : m.price <;> simp [computeQuote, hne, computeEquity, h, hp]
    · cases hp : m.price <;> simp [computeQuote, hne, computeEquity, h, hp]

/-- Witness for C1 at the spec's example: price = 150, prevClose = 100 gives
change = 50 and changePercent = 50; an equity with prevClose = 0 gets `none`
for both. -/
theorem equity_change_basis_witness :
    (computeQuote "AAPL" ⟨"EQUITY", some 150, some 100⟩ none 0).chg = some 50 ∧
    (computeQuote "AAPL" ⟨"EQUITY", some 150, some 100⟩ none 0).pct = some 50 ∧
    (computeQuote "AAPL" ⟨"EQUITY", some 150, some 0⟩ none 0).chg = none := by
  refine ⟨?_, ?_, ?_⟩
  · have h := (equity_change_basis "AAPL" ⟨"EQUITY", some 150, some 100⟩ none 0
      (by decide)).1 150 100 rfl rfl (by norm_num)
    rw [h.1]; norm_num
  · have h := (equity_change_basis "AAPL" ⟨"EQUITY", some 150, some 100⟩ none 0
      (by decide)).1 150 100 rfl rfl (by norm_num)
    rw [h.2]; norm_num
  · exact ((equity_change_basis "AAPL" ⟨"EQUITY", some 150, some 0⟩ none 0
      (by decide)).2 (Or.inr (Or.inr rfl))).1

/-- Claim C2: a symbol is classified crypto exactly when its stored instrument
type tag equals "CRYPTOCURRENCY" or its ticker ends with "-USD"; the crypto
reference price is the first 1-minute bar with a non-missing close whose
timestamp is at or after local-midnight-in-UTC; bars are requested from
midnight − 5 min to now; `change = latestPrice − referencePrice` and
`changePercent = change / referencePrice × 100`, both unavailable when the
reference price is zero or either price is unavailable. -/
theorem crypto_change_basis :
    (∀ (m : SymMeta) (sym : String),
      isCrypto m sym = true ↔ (m.inst = "CRYPTOCURRENCY" ∨ "-USD".data <:+ sym.data)) ∧
    (∀ (mid : Int) (bars : List (Int × Option ℚ)),
      firstBarAtOrAfter mid bars
        = ((bars.find? (fun b => b.2.isSome && decide (mid ≤ b.1))).bind Prod.snd)) ∧
    (∀ mid now : Int, cryptoRequestWindow mid now = (mid - 5 * 60, now)) ∧
    (∀ (sym : String) (m : SymMeta) (bars : Option (List Int × List (Option ℚ))) (mid : Int),
      isCrypto m sym = true →
      ((∀ r l, cryptoRefPx bars mid = some r → cryptoLatestPx m.price bars = some l → r ≠ 0 →
        (computeQuote sym m bars mid).chg = some (l - r) ∧
        (computeQuote sym m bars mid).pct = some ((l - r) / r * 100)) ∧
      ((cryptoRefPx bars mid = none ∨ cryptoRefPx bars mid = some 0 ∨
          cryptoLatestPx m.price bars = none) →
        (computeQuote sym m bars mid).chg = none ∧
        (computeQuote sym m bars mid).pct = none))) := by
  refine ⟨?_, ?_, ?_, ?_⟩
  · intro m sym
    simp [isCrypto, List.isSuffixOf_iff_suffix]
  · intro mid bars
    induction bars with
    | nil => rfl
    | cons b rest ih =>
      obtain ⟨t, c⟩ := b
      cases c with
      | none => simpa [firstBarAtOrAfter, List.find?] using ih
      | some cv =>
        by_cases h : mid ≤ t
        · simp [firstBarAtOrAfter, h, List.find?]
        · simpa [firstBarAtOrAfter, h, List.find?] using ih
  · intro mid now
    simp [cryptoRequestWindow]
  · intro sym m bars mid hc
    constructor
    · intro r l hr hl hr0
      simp [computeQuote, hc, computeCrypto, hr, hl, hr0]
    · intro h
      rcases h with h | h | h
      · rcases hl : cryptoLatestPx m.price bars with _ | l <;>
          simp [computeQuote, hc, computeCrypto, h, hl]
      · rcases hl : cryptoLatestPx m.price bars with _ | l <;>
          simp [computeQuote, hc, computeCrypto, h, hl]
      · rcases hr : cryptoRefPx bars mid with _ | r <;>
          simp [computeQuote, hc, computeCrypto, h, hr]

/-- Claim C9 counterexample: in the news-ticker batch-quote path
(`_yahoo_prices`), a quote whose change-percent is absent and whose open is
zero does NOT propagate an unavailable value — `float(chgPct if chgPct is not
None else 0.0)` substitutes `0.0`, so the missing change-percent reaches the
display as a zero (rendered "+0.00%"), contradicting the claim that a missing
change-percent is always the explicit unavailable value distinct from zero. -/
theorem news_pct_zero_default_cx :
    parseRawQuote ⟨"BTC-USD", some 10, some 0, none, none, ""⟩ =
      some ("BTC-USD", ⟨10, 0, true, 10, 0, ""⟩) := by
  have hu : strUpper "BTC-USD" = "BTC-USD" := by decide
  have hne : ("BTC-USD" : String) ≠ "" := by decide
  simp [parseRawQuote, hu, hne]

/-- Claim C9 (amended): missing numeric inputs never raise; in the live-tracker
pipeline a missing change or change-percent (e.g. from a zero previous close)
is represented as `none` end-to-end and rendered as an em-dash — distinct from
any zero rendering; exception (forced by the counterexample): the news-ticker
batch-quote path substitutes `0.0` for a missing change-percent when the
quote's open is zero. -/
theorem unavailable_renders_em_dash :
    (∀ s, paintText none s = "—") ∧
    (paintText (some 0) "" = "▲ 0.00" ∧ "—" ≠ paintText (some 0) "") ∧
    (∀ (p pc : Option ℚ), pc = none ∨ pc = some 0 →
      paintText (computeEquity p pc).1 "" = "—" ∧
      paintText (computeEquity p pc).2 "%" = "—") ∧
    (∀ (q : RawQuote) (price : ℚ), q.price = some price → q.openPx = some 0 →
      q.chgPct = none →
      ∀ s info, parseRawQuote q = some (s, info) → info.chgPct = 0) := by
  have hr0 : roundHE (0 : ℚ) = 0 := by norm_num [roundHE]
  have hfmt0 : fmtComma2 (0 : ℚ) = "0.00" := by
    simp [fmtComma2, hr0]
    decide
  have hpaint : paintText (some 0) "" = "▲ 0.00" := by
    simp [paintText, hfmt0]
  refine ⟨fun s => rfl, ⟨hpaint, by rw [hpaint]; decide⟩, ?_, ?_⟩
  · intro p pc h
    rcases h with h | h <;>
      rcases p with _ | pv <;> simp [computeEquity, h, paintText]
  · intro q price hp ho hpct s info hparse
    simp [parseRawQuote, hp, ho, hpct] at hparse
    rcases hparse with ⟨hif, -, hinfo⟩
    rw [← hinfo]

/-- Witness for the amended C9: an equity quote with price 150 and previous
close 0 paints the change cell as an em-dash, and a raw news quote with open 0
and no change-percent yields a stored change-percent of exactly 0. -/
theorem unavailable_renders_em_dash_witness :
    paintText (computeEquity (some 150) (some 0)).1 "" = "—" ∧
    (⟨10, 0, true, 10, 0, "USD"⟩ : PriceInfo).chgPct = 0 := by
  constructor
  · exact (unavailable_renders_em_dash.2.2.1 (some 150) (some 0) (Or.inr rfl)).1
  · refine unavailable_renders_em_dash.2.2.2 ⟨"qqq", some 10, some 0, none, none, "USD"⟩
      10 rfl rfl rfl "QQQ" ⟨10, 0, true, 10, 0, "USD"⟩ ?_
    have hu : strUpper "qqq" = "QQQ" := by decide
    have hne : ("QQQ" : String) ≠ "" := by decide
    simp [parseRawQuote, hu, hne]

/-- Claim C3 counterexample: the title "THE FED WARNS ON GDP" does NOT detect
no symbol — the bare-caps fallback finds "WARNS" (and "ON"), neither of which
is in the fixed stopword list, so the code returns WARNS while the claim says
every candidate word is stopworded. -/
theorem guess_symbol_stopword_cx :
    guessSymbol "THE FED WARNS ON GDP" = some "WARNS" := by
  decide

/-- Claim C3 (amended): symbol detection tries the four patterns in strict
precedence order and stops at the first pattern that matches anywhere in the
title: (1) a 1–5-uppercase-letter cashtag, (2) a parenthesized
1–5-uppercase-letter ticker, (3) an exchange-prefixed ticker, (4) a bare
1–5-letter all-uppercase word not in the fixed stopword list; if none matches
the item gets no symbol. "$AAPL surges after (MSFT) deal" detects AAPL and
"NASDAQ: TSLA rallies" detects TSLA; but "THE FED WARNS ON GDP" detects WARNS
(amended: WARNS and ON are not stopwords, so the fallback returns the first
surviving candidate rather than nothing). -/
theorem guess_symbol_precedence :
    (∀ (t : String) (r : List Char), searchCashtag t.data = some r →
      guessSymbol t = some (String.mk r)) ∧
    (∀ (t : String) (r : List Char), searchCashtag t.data = none →
      searchParen t.data = some r → guessSymbol t = some (String.mk r)) ∧
    (∀ (t : String) (r : List Char), searchCashtag t.data = none →
      searchParen t.data = none → searchExch t.data = some r →
      guessSymbol t = some (String.mk r)) ∧
    (∀ t : String, searchCashtag t.data = none → searchParen t.data = none →
      searchExch t.data = none → guessSymbol t = fallbackCaps t.data) ∧
    guessSymbol "$AAPL surges after (MSFT) deal" = some "AAPL" ∧
    guessSymbol "NASDAQ: TSLA rallies" = some "TSLA" ∧
    guessSymbol "THE FED WARNS ON GDP" = some "WARNS" := by
  refine ⟨?_, ?_, ?_, ?_, by decide, by decide, by decide⟩
  · intro t r h1
    simp [guessSymbol, h1]
  · intro t r h1 h2
    simp [guessSymbol, h1, h2]
  · intro t r h1 h2 h3
    simp [guessSymbol, h1, h2, h3]
  · intro t h1 h2 h3
    simp [guessSymbol, h1, h2, h3]

/-- Witness for the amended C3: the cashtag conjunct applied at the concrete
title "$AB deal". -/
theorem guess_symbol_precedence_witness :
    guessSymbol "$AB deal" = some "AB" :=
  guess_symbol_precedence.1 "$AB deal" ['A', 'B'] (by decide)

theorem dedupArticles_count (k : String × String) :
    ∀ (l : List Article) (seen : List (String × String)),
      ((dedupArticles seen l).filter (fun a => articleKey a = k)).length =
        if k ∈ seen then 0 else if ∃ a ∈ l, articleKey a = k then 1 else 0 := by
  intro l
  induction l with
  | nil => intro seen; simp [dedupArticles]
  | cons a rest ih =>
    intro seen
    by_cases hmem : articleKey a ∈ seen
    · rw [dedupArticles, if_pos hmem, ih seen]
      by_cases hk : k ∈ seen
      · simp [hk]
      · have hak : articleKey a ≠ k := fun h => hk (h ▸ hmem)
        simp [hk, hak, Ne.symm hak]
    · rw [dedupArticles, if_neg hmem]
      by_cases hak : articleKey a = k
      · have hk : k ∉ seen := fun h => hmem (hak ▸ h)
        have : k ∈ articleKey a :: seen := by simp [hak]
        rw [List.filter_cons_of_pos (by simp [hak]), List.length_cons, ih, if_pos this]
        simp [hk, hak]
      · rw [List.filter_cons_of_neg (by simp [hak]), ih]
        have : (k ∈ articleKey a :: seen) ↔ (k ∈ seen) := by simp [Ne.symm hak]
        by_cases hk : k ∈ seen
        · simp [hk, this]
        · simp only [this, if_neg hk]
          have : (∃ b ∈ a :: rest, articleKey b = k) ↔ (∃ b ∈ rest, articleKey b = k) := by
            simp [hak]
          exact if_congr this.symm rfl rfl

theorem countTL_attach (k : String × String) (l : List Article) :
    countTLKey k (attachSymbols l) = (l.filter (fun a => articleKey a = k)).length := by
  induction l with
  | nil => simp [countTLKey, attachSymbols]
  | cons a rest ih =>
    by_cases hak : articleKey a = k
    · simp only [countTLKey, attachSymbols, List.map_cons] at *
      rw [List.filter_cons_of_pos (by simpa [articleKey] using hak),
        List.filter_cons_of_pos (by simpa using hak), List.length_cons, List.length_cons, ih]
    · simp only [countTLKey, attachSymbols, List.map_cons] at *
      rw [List.filter_cons_of_neg (by simpa [articleKey] using hak),
        List.filter_cons_of_neg (by simpa using hak), ih]

theorem mergeItems_preserved (fresh : List NewsItem) :
    ∀ (st : TickerState) (k : String × String × String), k ∈ st.seenKeys →
      k ∈ (mergeItemsUI st fresh).seenKeys ∧
      countItemKey k (mergeItemsUI st fresh).items = countItemKey k st.items := by
  induction fresh with
  | nil => intro st k hk; exact ⟨hk, rfl⟩
  | cons it rest ih =>
    intro st k hk
    by_cases hmem : itemKey it ∈ st.seenKeys
    · have : mergeItemsUI st (it :: rest) = mergeItemsUI st rest := by
        simp [mergeItemsUI, List.foldl_cons, hmem]
      rw [this]; exact ih st k hk
    · have hne : itemKey it ≠ k := fun h => hmem (h ▸ hk)
      have hstep : mergeItemsUI st (it :: rest) =
          mergeItemsUI ⟨itemKey it :: st.seenKeys, st.items ++ [it]⟩ rest := by
        simp [mergeItemsUI, List.foldl_cons, hmem]
      rw [hstep]
      have hk' : k ∈ itemKey it :: st.seenKeys := List.mem_cons_of_mem _ hk
      obtain ⟨h1, h2⟩ := ih ⟨itemKey it :: st.seenKeys, st.items ++ [it]⟩ k hk'
      refine ⟨h1, ?_⟩
      rw [h2]
      simp [countItemKey, List.filter_append, hne]

/-- Claim C4: news dedup is idempotent. Within one cycle, a (title, link) key
fetched more than once yields exactly one produced NewsItem; across cycles, an
item whose (title, link, detectedSymbol) key is already in the seen-set is
dropped (the stored item count for that key never changes) and the seen-set
only grows — keys are added, never removed. -/
theorem news_dedup_idempotent :
    (∀ (l : List Article) (k : String × String), (∃ a ∈ l, articleKey a = k) →
      countTLKey k (attachSymbols (dedupArticles [] l)) = 1) ∧
    (∀ (st : TickerState) (fresh : List NewsItem) (k : String × String × String),
      k ∈ st.seenKeys →
      countItemKey k (mergeItemsUI st fresh).items = countItemKey k st.items) ∧
    (∀ (st : TickerState) (fresh : List NewsItem) (k : String × String × String),
      k ∈ st.seenKeys → k ∈ (mergeItemsUI st fresh).seenKeys) := by
  refine ⟨?_, ?_, ?_⟩
  · intro l k hex
    rw [countTL_attach]
    have := dedupArticles_count k l []
    simp only [List.not_mem_nil, if_false] at this
    rw [this, if_pos hex]
  · intro st fresh k hk
    exact (mergeItems_preserved fresh st k hk).2
  · intro st fresh k hk
    exact (mergeItems_preserved fresh st k hk).1

/-- Witness for C4: the same (title, link) pair fetched three times in one
cycle yields exactly one produced item, and a state that has already seen a
key neither re-admits it nor loses it. -/
theorem news_dedup_idempotent_witness :
    countTLKey ("a", "b")
      (attachSymbols (dedupArticles [] [⟨"a", "b"⟩, ⟨"a", "b"⟩, ⟨"a", "b"⟩])) = 1 ∧
    countItemKey ("a", "b", "")
      (mergeItemsUI ⟨[("a", "b", "")], []⟩ [⟨"a", "b", none⟩]).items = 0 ∧
    ("a", "b", "") ∈ (mergeItemsUI ⟨[("a", "b", "")], []⟩ [⟨"a", "b", none⟩]).seenKeys := by
  refine ⟨?_, ?_, ?_⟩
  · exact news_dedup_idempotent.1 [⟨"a", "b"⟩, ⟨"a", "b"⟩, ⟨"a", "b"⟩] ("a", "b")
      ⟨⟨"a", "b"⟩, by decide, by decide⟩
  · have h := news_dedup_idempotent.2.1 ⟨[("a", "b", "")], []⟩ [⟨"a", "b", none⟩]
      ("a", "b", "") (by decide)
    rw [h]; rfl
  · exact news_dedup_idempotent.2.2 ⟨[("a", "b", "")], []⟩ [⟨"a", "b", none⟩]
      ("a", "b", "") (by decide)

/-- Claim C5 counterexample: (1) a unit exposing two qualifying plugin types
is NOT skipped — the first type found is registered; (2) a unit exposing zero
qualifying types is skipped silently, with no logged reason. -/
theorem discover_skip_rules_cx :
    discoverDescs [.ok [⟨true, false, "a", "A", "da"⟩, ⟨true, false, "b", "B", "db"⟩]] =
      [⟨"a", "A", "da"⟩] ∧
    (discoverLogCount [.ok [⟨true, false, "a", "A", "da"⟩, ⟨true, false, "b", "B", "db"⟩]] = 0 ∧
      discoverLogCount [.ok []] = 0 ∧ discoverDescs [.ok []] = []) := by
  refine ⟨by decide, by decide, by decide, by decide⟩

/-- Claim C5 (amended): discovery never aborts on one bad unit — a unit that
fails to load or throws during load or instantiation is skipped with a logged
reason, a unit exposing zero qualifying types is skipped silently, a unit
exposing multiple qualifying types registers the first one found, and a
descriptor lacking either id or displayName is rejected (silently); all
remaining units are still processed, so a directory with one well-formed unit
and one unit that throws on load yields exactly one descriptor plus a log
entry for the failing unit. -/
theorem discovery_isolates_bad_units :
    (∀ (us1 us2 : List UnitLoad) (u : UnitLoad) (b : Bool), discoverUnit u = (none, b) →
      discoverDescs (us1 ++ u :: us2) = discoverDescs (us1 ++ us2) ∧
      discoverLogCount (us1 ++ u :: us2)
        = discoverLogCount (us1 ++ us2) + (if b then 1 else 0)) ∧
    (discoverUnit .raises = (none, true)) ∧
    (∀ (c : Cand) (cs : List Cand), c.qualifies = true → c.ctorThrows = false →
      (c.mid = "" ∨ c.mname = "") → discoverUnit (.ok (c :: cs)) = (none, false)) ∧
    (∀ (c : Cand) (cs : List Cand), c.qualifies = true → c.ctorThrows = false →
      c.mid ≠ "" → c.mname ≠ "" →
      discoverUnit (.ok (c :: cs)) = (some ⟨c.mid, c.mname, c.mdesc⟩, false)) ∧
    (discoverDescs [.raises, .ok [⟨true, false, "w", "W", "d"⟩]] = [⟨"w", "W", "d"⟩] ∧
      discoverLogCount [.raises, .ok [⟨true, false, "w", "W", "d"⟩]] = 1) := by
  refine ⟨?_, rfl, ?_, ?_, by decide, by decide⟩
  · intro us1 us2 u b h
    constructor
    · have h1 : (discoverUnit u).1 = none := by rw [h]
      simp [discoverDescs, List.foldl_append, h1]
    · have h2 : (discoverUnit u).2 = b := by rw [h]
      simp [discoverLogCount, List.filter_append, List.filter_cons, h2]
      cases b <;> simp
      omega
  · intro c cs hq hc hid
    simp [discoverUnit, List.find?_cons_of_pos _ hq, hc, hid]
  · intro c cs hq hc hid hname
    simp [discoverUnit, List.find?_cons_of_pos _ hq, hc, hid, hname]

/-- Witness for the amended C5: a throwing unit placed before a well-formed
unit changes nothing about the registered descriptors and adds exactly one
log entry. -/
theorem discovery_isolates_bad_units_witness :
    discoverDescs [UnitLoad.raises, .ok [⟨true, false, "w", "W", "d"⟩]] =
      discoverDescs [.ok [⟨true, false, "w", "W", "d"⟩]] ∧
    discoverLogCount [UnitLoad.raises, .ok [⟨true, false, "w", "W", "d"⟩]] =
      discoverLogCount [.ok [⟨true, false, "w", "W", "d"⟩]] + 1 := by
  have h := discovery_isolates_bad_units.1 [] [.ok [⟨true, false, "w", "W", "d"⟩]]
    UnitLoad.raises true rfl
  simpa using h

theorem onDataEvents_append (a b : List Event) :
    onDataEvents (a ++ b) = onDataEvents a ++ onDataEvents b := by
  induction a with
  | nil => rfl
  | cons e rest ih =>
    cases e <;> simp [onDataEvents, ih]

theorem notify_onDataEvents (h : Host) :
    onDataEvents (notifyModules h) =
      h.loadedModules.map (fun p => (p.1, h.dataBySymbol, h.tickers)) := by
  unfold notifyModules
  induction h.loadedModules with
  | nil => rfl
  | cons p rest ih =>
    rw [List.flatMap_cons, onDataEvents_append, ih]
    by_cases hd : p.2.onDataThrows <;> simp [hd, onDataEvents]

/-- Claim C7: broadcast delivers the same dataset to every currently-loaded
plugin instance exactly once per cycle in registration order and to no
disabled (absent) instance; a raising `on_data` of one instance is caught
(logged) and does not prevent delivery to the remaining instances — the
delivery sequence equals the full registration list regardless of which
instances throw, and `_notify_modules` is a total function (never raises). -/
theorem broadcast_exactly_once (h : Host) :
    onDataEvents (notifyModules h) =
      h.loadedModules.map (fun p => (p.1, h.dataBySymbol, h.tickers)) ∧
    ∀ mid : String,
      ((onDataEvents (notifyModules h)).filter (fun e => e.1 = mid)).length =
        (h.loadedModules.filter (fun p => p.1 = mid)).length := by
  refine ⟨notify_onDataEvents h, ?_⟩
  intro mid
  rw [notify_onDataEvents h, List.filter_map]
  simp [Function.comp_def]

theorem lookup_filter_ne (mid : String) (l : List (String × Plugin)) :
    (l.filter (fun p => p.1 ≠ mid)).lookup mid = none := by
  induction l with
  | nil => rfl
  | cons p rest ih =>
    by_cases hp : p.1 = mid
    · rw [List.filter_cons, if_neg (by simp [hp])]
      exact ih
    · rw [List.filter_cons, if_pos (by simp [hp])]
      have hbeq : (mid == p.1) = false := beq_eq_false_iff_ne.mpr (Ne.symm hp)
      simp only [List.lookup, hbeq]
      exact ih

theorem mem_insertSorted (x y : String) (l : List String) :
    x ∈ insertSorted y l ↔ x = y ∨ x ∈ l := by
  induction l with
  | nil => simp [insertSorted]
  | cons z zs ih =>
    by_cases h : y < z
    · simp [insertSorted, h]
    · simp only [insertSorted, if_neg h, List.mem_cons, ih]
      tauto

theorem mem_sortStrings (x : String) (l : List String) :
    x ∈ sortStrings l ↔ x ∈ l := by
  induction l with
  | nil => simp [sortStrings]
  | cons z zs ih =>
    simp only [sortStrings, List.foldr_cons] at *
    rw [mem_insertSorted, ih, List.mem_cons]

theorem instantiate_noop (h : Host) (mid : String)
    (hlive : (h.loadedModules.lookup mid).isSome) :
    instantiateModule h mid = (h, []) := by
  simp [instantiateModule, hlive]

theorem instantiate_fresh (h : Host) (mid : String) (spec : MSpec)
    (hlive : h.loadedModules.lookup mid = none)
    (hspec : h.moduleSpecs.lookup mid = some spec)
    (hctor : spec.ctorThrows = false) :
    (instantiateModule h mid).1.loadedModules = h.loadedModules ++ [(mid, spec.plugin)] ∧
    Event.constructed mid ∈ (instantiateModule h mid).2 ∧
    Event.onEnable mid ∈ (instantiateModule h mid).2 ∧
    (h.dataBySymbol ≠ [] → spec.plugin.onEnableThrows = false →
      Event.onData mid h.dataBySymbol h.tickers ∈ (instantiateModule h mid).2) := by
  have hl : (h.loadedModules.lookup mid).isSome = false := by simp [hlive]
  by_cases he : spec.plugin.onEnableThrows
  · simp [instantiateModule, hl, hspec, hctor, he]
  · by_cases hd : h.dataBySymbol = []
    · simp [instantiateModule, hl, hspec, hctor, he, hd]
    · by_cases hdt : spec.plugin.onDataThrows
      · simp [instantiateModule, hl, hspec, hctor, he, hd, hdt]
      · simp [instantiateModule, hl, hspec, hctor, he, hd, hdt]

theorem toggle_off_state (h : Host) (mid : String) (hmem : mid ∈ h.enabledModules) :
    (toggleModule h mid false).1.moduleSpecs = h.moduleSpecs ∧
    (toggleModule h mid false).1.dataBySymbol = h.dataBySymbol ∧
    (toggleModule h mid false).1.tickers = h.tickers ∧
    (toggleModule h mid false).1.loadedModules.lookup mid = none ∧
    mid ∉ (toggleModule h mid false).1.enabledModules := by
  have hstate : (toggleModule h mid false).1 =
      { (removeModuleWidget h mid).1 with
          enabledModules := sortStrings (h.enabledModules.filter (fun x => x ≠ mid)) } := by
    simp [toggleModule, hmem]
  have hmemout : mid ∉ sortStrings (h.enabledModules.filter (fun x => x ≠ mid)) := by
    rw [mem_sortStrings]
    simp
  rcases hl : h.loadedModules.lookup mid with _ | inst
  · have hrm : (removeModuleWidget h mid).1 = h := by
      simp [removeModuleWidget, hl]
    rw [hstate, hrm]
    exact ⟨rfl, rfl, rfl, hl, hmemout⟩
  · have hrm : (removeModuleWidget h mid).1 =
        { h with loadedModules := h.loadedModules.filter (fun p => p.1 ≠ mid) } := by
      simp [removeModuleWidget, hl]
    rw [hstate, hrm]
    exact ⟨rfl, rfl, rfl, lookup_filter_ne mid h.loadedModules, hmemout⟩

/-- Claim C6: enabling a plugin is idempotent — with an instance already live,
enabling constructs no second instance and leaves the loaded set unchanged;
otherwise exactly one instance is constructed, its `on_enable` is called, and
the last known dataset (when one exists) is immediately replayed to its
`on_data` without a new fetch cycle; hence toggling off then on replays the
last dataset; and the persisted enabled set is (re)saved after every toggle. -/
theorem toggle_enable_idempotent_replay :
    (∀ (h : Host) (mid : String), (h.loadedModules.lookup mid).isSome →
      (toggleModule h mid true).1.loadedModules = h.loadedModules ∧
      ∀ m, Event.constructed m ∉ (toggleModule h mid true).2) ∧
    (∀ (h : Host) (mid : String) (spec : MSpec),
      h.loadedModules.lookup mid = none → mid ∉ h.enabledModules →
      h.moduleSpecs.lookup mid = some spec → spec.ctorThrows = false →
      (toggleModule h mid true).1.loadedModules = h.loadedModules ++ [(mid, spec.plugin)] ∧
      Event.onEnable mid ∈ (toggleModule h mid true).2 ∧
      (h.dataBySymbol ≠ [] → spec.plugin.onEnableThrows = false →
        Event.onData mid h.dataBySymbol h.tickers ∈ (toggleModule h mid true).2)) ∧
    (∀ (h : Host) (mid : String) (e : Bool),
      ((toggleModule h mid e).2).getLast? =
        some (.saveSettings (toggleModule h mid e).1.enabledModules)) ∧
    (∀ (h : Host) (mid : String) (spec : MSpec),
      mid ∈ h.enabledModules → h.moduleSpecs.lookup mid = some spec →
      spec.ctorThrows = false → spec.plugin.onEnableThrows = false →
      h.dataBySymbol ≠ [] →
      Event.onData mid h.dataBySymbol h.tickers ∈
        (toggleModule (toggleModule h mid false).1 mid true).2) := by
  refine ⟨?_, ?_, ?_, ?_⟩
  · intro h mid hlive
    by_cases hmem : mid ∈ h.enabledModules
    · simp [toggleModule, hmem]
    · simp [toggleModule, hmem, instantiate_noop h mid hlive]
  · intro h mid spec hlive hmem hspec hctor
    obtain ⟨h1, h2, h3, h4⟩ := instantiate_fresh h mid spec hlive hspec hctor
    have hev : (toggleModule h mid true).2 =
        (instantiateModule h mid).2 ++
          [Event.saveSettings (sortStrings (h.enabledModules ++ [mid]))] := by
      simp [toggleModule, hmem]
    have hld : (toggleModule h mid true).1.loadedModules =
        (instantiateModule h mid).1.loadedModules := by
      simp [toggleModule, hmem]
    refine ⟨by rw [hld, h1], ?_, ?_⟩
    · rw [hev]; exact List.mem_append_left _ h3
    · intro hd he
      rw [hev]; exact List.mem_append_left _ (h4 hd he)
  · intro h mid e
    cases e
    · by_cases hmem : mid ∈ h.enabledModules <;>
        simp [toggleModule, hmem, List.getLast?_concat]
    · by_cases hmem : mid ∈ h.enabledModules <;>
        simp [toggleModule, hmem, List.getLast?_concat]
  · intro h mid spec hmem hspec hctor hen hdata
    obtain ⟨hms, hds, hts, hl, hne⟩ := toggle_off_state h mid hmem
    generalize hgen : (toggleModule h mid false).1 = h1 at hms hds hts hl hne ⊢
    have hspec1 : h1.moduleSpecs.lookup mid = some spec := by
      rw [hms]; exact hspec
    have key := instantiate_fresh h1 mid spec hl hspec1 hctor
    have hreplay := key.2.2.2 (by rw [hds]; exact hdata) hen
    rw [hds, hts] at hreplay
    have hev : (toggleModule h1 mid true).2 =
        (instantiateModule h1 mid).2 ++
          [Event.saveSettings (sortStrings (h1.enabledModules ++ [mid]))] := by
      simp [toggleModule, hne]
    rw [hev]
    exact List.mem_append_left _ hreplay

/-- Witness for C6 at a one-plugin host: toggling "m" off then on replays the
last dataset to its `on_data`. -/
theorem toggle_enable_idempotent_replay_witness :
    Event.onData "m" [("A", [⟨"2024-01-01", 1, 2⟩])] ["A"] ∈
      (toggleModule
        (toggleModule
          ⟨[("m", ⟨"M", "", false, ⟨false, false⟩⟩)], ["m"],
            [("m", ⟨false, false⟩)], [("A", [⟨"2024-01-01", 1, 2⟩])], ["A"]⟩
          "m" false).1
        "m" true).2 := by
  exact toggle_enable_idempotent_replay.2.2.2
    ⟨[("m", ⟨"M", "", false, ⟨false, false⟩⟩)], ["m"],
      [("m", ⟨false, false⟩)], [("A", [⟨"2024-01-01", 1, 2⟩])], ["A"]⟩
    "m" ⟨"M", "", false, ⟨false, false⟩⟩ (by decide) rfl rfl rfl (by decide)

theorem fetchEntry_key (remote : String → Option (List Bar)) (s : String)
    (e : String × List Bar) (h : fetchEntry remote s = some e) :
    e.1 = s ∧ e.2 ≠ [] ∧ remote s = some e.2 := by
  rcases hr : remote s with _ | rows
  · simp [fetchEntry, hr] at h
  · by_cases hrows : rows = []
    · simp [fetchEntry, hr, hrows] at h
    · simp only [fetchEntry, hr, if_neg hrows] at h
      obtain rfl := (Option.some_inj.mp h).symm
      exact ⟨rfl, hrows, rfl⟩

theorem lookup_fetchData_some (remote : String → Option (List Bar)) :
    ∀ (l : List String), l.Nodup → ∀ s rows, s ∈ l → remote s = some rows → rows ≠ [] →
      (l.filterMap (fetchEntry remote)).lookup s = some rows := by
  intro l
  induction l with
  | nil => intro _ s rows hs; exact absurd hs (List.not_mem_nil s)
  | cons a rest ih =>
    intro hnd s rows hs hr hrows
    rcases List.mem_cons.mp hs with rfl | hmem
    · have he : fetchEntry remote s = some (s, rows) := by
        simp [fetchEntry, hr, hrows]
      simp [List.filterMap_cons, he, List.lookup]
    · have hanes : a ≠ s := fun heq => (List.nodup_cons.mp hnd).1 (heq ▸ hmem)
      rcases hfa : fetchEntry remote a with _ | e
      · rw [List.filterMap_cons_none hfa]
        exact ih (List.nodup_cons.mp hnd).2 s rows hmem hr hrows
      · have hkey := (fetchEntry_key remote a e hfa).1
        rw [List.filterMap_cons_some hfa]
        have hbeq : (s == e.1) = false :=
          beq_eq_false_iff_ne.mpr (fun heq => hanes (hkey ▸ heq).symm)
        cases e with
        | mk k v =>
          simp only [List.lookup, hbeq]
          exact ih (List.nodup_cons.mp hnd).2 s rows hmem hr hrows

theorem lookup_fetchData_none (remote : String → Option (List Bar)) (s : String)
    (hs : fetchEntry remote s = none) :
    ∀ l : List String, (l.filterMap (fetchEntry remote)).lookup s = none := by
  intro l
  induction l with
  | nil => rfl
  | cons a rest ih =>
    rcases hfa : fetchEntry remote a with _ | e
    · rw [List.filterMap_cons_none hfa]; exact ih
    · have hkey := (fetchEntry_key remote a e hfa).1
      have hanes : e.1 ≠ s := by
        intro heq
        rw [hkey] at heq
        rw [heq] at hfa
        rw [hs] at hfa
        exact absurd hfa (by simp)
      rw [List.filterMap_cons_some hfa]
      have hbeq : (s == e.1) = false := beq_eq_false_iff_ne.mpr (Ne.symm hanes)
      cases e with
      | mk k v =>
        simp only [List.lookup, hbeq]
        exact ih

theorem fetchData_keys (remote : String → Option (List Bar)) :
    ∀ l : List String,
      (l.filterMap (fetchEntry remote)).map Prod.fst =
        l.filter (fun s => (fetchEntry remote s).isSome) := by
  intro l
  induction l with
  | nil => rfl
  | cons a rest ih =>
    rcases hfa : fetchEntry remote a with _ | e
    · rw [List.filterMap_cons_none hfa, List.filter_cons, if_neg (by simp [hfa])]
      exact ih
    · have hkey := (fetchEntry_key remote a e hfa).1
      rw [List.filterMap_cons_some hfa, List.filter_cons, if_pos (by simp [hfa]),
        List.map_cons, ih, hkey]

theorem fetchData_values_ne_nil (remote : String → Option (List Bar))
    (l : List String) (p : String × List Bar)
    (hp : p ∈ l.filterMap (fetchEntry remote)) : p.2 ≠ [] := by
  obtain ⟨a, -, ha⟩ := List.mem_filterMap.mp hp
  exact (fetchEntry_key remote a p ha).2.1

theorem dedupUpper_mem (x : String) :
    ∀ (l : List String) (seen : List String), x ∈ dedupUpper seen l →
      x ∉ seen ∧ ∃ t ∈ l, x = strUpper t := by
  intro l
  induction l with
  | nil => intro seen h; exact absurd h (List.not_mem_nil x)
  | cons t rest ih =>
    intro seen h
    rw [dedupUpper] at h
    by_cases hmem : strUpper t ∈ seen
    · rw [if_pos hmem] at h
      obtain ⟨h1, w, hw, he⟩ := ih seen h
      exact ⟨h1, w, List.mem_cons_of_mem t hw, he⟩
    · rw [if_neg hmem] at h
      rcases List.mem_cons.mp h with rfl | hrest
      · exact ⟨hmem, t, List.mem_cons_self t rest, rfl⟩
      · obtain ⟨h1, w, hw, he⟩ := ih (strUpper t :: seen) hrest
        exact ⟨fun hx => h1 (List.mem_cons_of_mem _ hx), w, List.mem_cons_of_mem t hw, he⟩

theorem dedupUpper_nodup : ∀ (l : List String) (seen : List String),
    (dedupUpper seen l).Nodup := by
  intro l
  induction l with
  | nil => intro seen; simp [dedupUpper]
  | cons t rest ih =>
    intro seen
    rw [dedupUpper]
    by_cases hmem : strUpper t ∈ seen
    · rw [if_pos hmem]; exact ih seen
    · rw [if_neg hmem]
      refine List.nodup_cons.mpr ⟨?_, ih (strUpper t :: seen)⟩
      intro hx
      exact (dedupUpper_mem (strUpper t) rest (strUpper t :: seen) hx).1
        (List.mem_cons_self _ _)

theorem normalizeTickers_nodup (raw : String) : (normalizeTickers raw).Nodup :=
  dedupUpper_nodup _ []

theorem onFetch_valid (h : Host) (raw daysText : String)
    (remote : String → Option (List Bar)) (d : Int)
    (hdays : parseIntStr (strTrim daysText) = some d) (hpos : 0 < d)
    (hne : normalizeTickers raw ≠ []) :
    onFetch h raw daysText remote =
      ({ h with
          dataBySymbol := (normalizeTickers raw).filterMap (fetchEntry remote),
          tickers := (normalizeTickers raw).filter
            (fun s =>
              (((normalizeTickers raw).filterMap (fetchEntry remote)).lookup s).isSome) },
        Event.statusMsg
            ((normalizeTickers raw).filter
              (fun s =>
                (((normalizeTickers raw).filterMap (fetchEntry remote)).lookup s).isSome))
            ((normalizeTickers raw).filter (fun s => remote s = none)) ::
          notifyModules
            { h with
                dataBySymbol := (normalizeTickers raw).filterMap (fetchEntry remote),
                tickers := (normalizeTickers raw).filter
                  (fun s =>
                    (((normalizeTickers raw).filterMap
                        (fetchEntry remote)).lookup s).isSome) }) := by
  have hnle : ¬(d ≤ 0) := by omega
  simp [onFetch, hdays, hnle, hne]

/-- Claim C8: a fetch cycle is never all-or-nothing — with symbol A failing
and symbol B succeeding (with non-empty rows), B's series is stored and B is
in the delivered ticker list, A is excluded from it but reported in the
status message's failed list, and the merged dataset is still delivered to
every loaded plugin. -/
theorem fetch_partial_results (h : Host) (raw daysText : String)
    (remote : String → Option (List Bar)) (A B : String) (rows : List Bar) (d : Int)
    (hdays : parseIntStr (strTrim daysText) = some d) (hpos : 0 < d)
    (hA : A ∈ normalizeTickers raw) (hB : B ∈ normalizeTickers raw)
    (hAfail : remote A = none) (hBok : remote B = some rows) (hrows : rows ≠ []) :
    (onFetch h raw daysText remote).1.dataBySymbol.lookup B = some rows ∧
    B ∈ (onFetch h raw daysText remote).1.tickers ∧
    A ∉ (onFetch h raw daysText remote).1.tickers ∧
    A ∈ (normalizeTickers raw).filter (fun s => remote s = none) ∧
    Event.statusMsg (onFetch h raw daysText remote).1.tickers
        ((normalizeTickers raw).filter (fun s => remote s = none))
      ∈ (onFetch h raw daysText remote).2 ∧
    onDataEvents (onFetch h raw daysText remote).2 =
      (onFetch h raw daysText remote).1.loadedModules.map
        (fun p => (p.1, (onFetch h raw daysText remote).1.dataBySymbol,
          (onFetch h raw daysText remote).1.tickers)) := by
  have hne : normalizeTickers raw ≠ [] := List.ne_nil_of_mem hB
  rw [onFetch_valid h raw daysText remote d hdays hpos hne]
  have hlookB :
      (((normalizeTickers raw).filterMap (fetchEntry remote)).lookup B) = some rows :=
    lookup_fetchData_some remote (normalizeTickers raw) (normalizeTickers_nodup raw)
      B rows hB hBok hrows
  have hfeA : fetchEntry remote A = none := by
    simp [fetchEntry, hAfail]
  have hlookA :
      (((normalizeTickers raw).filterMap (fetchEntry remote)).lookup A) = none :=
    lookup_fetchData_none remote A hfeA (normalizeTickers raw)
  refine ⟨hlookB, ?_, ?_, ?_, ?_, ?_⟩
  · exact List.mem_filter.mpr ⟨hB, by rw [hlookB]; rfl⟩
  · intro hmem
    have := (List.mem_filter.mp hmem).2
    rw [hlookA] at this
    exact absurd this (by simp)
  · exact List.mem_filter.mpr ⟨hA, by simp [hAfail]⟩
  · exact List.mem_cons_self _ _
  · show onDataEvents (Event.statusMsg _ _ :: notifyModules _) = _
    rw [show ∀ t f l, onDataEvents (Event.statusMsg t f :: l) = onDataEvents l
      from fun _ _ _ => rfl]
    exact notify_onDataEvents _

/-- Witness for C8: a two-symbol fetch where A fails and B succeeds still
stores and lists B while excluding A. -/
theorem fetch_partial_results_witness :
    (onFetch ⟨[], [], [], [], []⟩ "a, B, a" "5"
        (fun s => if s = "B" then some [⟨"d", 1, 2⟩] else none)).1.dataBySymbol.lookup "B"
      = some [⟨"d", 1, 2⟩] ∧
    "A" ∉ (onFetch ⟨[], [], [], [], []⟩ "a, B, a" "5"
        (fun s => if s = "B" then some [⟨"d", 1, 2⟩] else none)).1.tickers := by
  have h := fetch_partial_results ⟨[], [], [], [], []⟩ "a, B, a" "5"
    (fun s => if s = "B" then some [⟨"d", 1, 2⟩] else none) "A" "B" [⟨"d", 1, 2⟩] 5
    (by decide) (by decide) (by decide) (by decide) (by decide) rfl (by decide)
  exact ⟨h.1, h.2.2.1⟩

/-- Claim C10 (implicit): for every fetch cycle the host normalizes the
ticker input by trimming, uppercasing and deduplicating with first-occurrence
order (so the normalized list is duplicate-free and each entry is the
uppercased trim of an input piece), and every plugin data callback receives an
ordered ticker list whose elements are exactly the keys of the series map, in
that order, with every key bound to a non-empty bar list — a plugin never sees
a ticker without data or data without a listed ticker. -/
theorem fetch_normalized_keys_invariant (h : Host) (raw daysText : String)
    (remote : String → Option (List Bar)) (d : Int)
    (hdays : parseIntStr (strTrim daysText) = some d) (hpos : 0 < d)
    (hne : normalizeTickers raw ≠ []) :
    (normalizeTickers raw).Nodup ∧
    (∀ t ∈ normalizeTickers raw,
      ∃ s ∈ ((splitComma (strTrim raw)).map strTrim).filter (fun x => x ≠ ""),
        t = strUpper s) ∧
    (onFetch h raw daysText remote).1.dataBySymbol.map Prod.fst =
      (onFetch h raw daysText remote).1.tickers ∧
    (∀ p ∈ (onFetch h raw daysText remote).1.dataBySymbol, p.2 ≠ []) ∧
    (onFetch h raw daysText remote).1.tickers.Sublist (normalizeTickers raw) ∧
    onDataEvents (onFetch h raw daysText remote).2 =
      (onFetch h raw daysText remote).1.loadedModules.map
        (fun p => (p.1, (onFetch h raw daysText remote).1.dataBySymbol,
          (onFetch h raw daysText remote).1.tickers)) := by
  refine ⟨normalizeTickers_nodup raw, ?_, ?_, ?_, ?_, ?_⟩
  · intro t ht
    obtain ⟨-, s, hs, he⟩ := dedupUpper_mem t _ [] ht
    exact ⟨s, hs, he⟩
  · rw [onFetch_valid h raw daysText remote d hdays hpos hne]
    show ((normalizeTickers raw).filterMap (fetchEntry remote)).map Prod.fst = _
    rw [fetchData_keys remote (normalizeTickers raw)]
    refine List.filter_congr ?_
    intro s hs
    rcases hfe : fetchEntry remote s with _ | e
    · rw [lookup_fetchData_none remote s hfe (normalizeTickers raw)]
      rfl
    · obtain ⟨hkey, hrows, hr⟩ := fetchEntry_key remote s e hfe
      rw [lookup_fetchData_some remote (normalizeTickers raw) (normalizeTickers_nodup raw)
        s e.2 hs hr hrows]
      rfl
  · rw [onFetch_valid h raw daysText remote d hdays hpos hne]
    intro p hp
    exact fetchData_values_ne_nil remote (normalizeTickers raw) p hp
  · rw [onFetch_valid h raw daysText remote d hdays hpos hne]
    exact List.filter_sublist _
  · rw [onFetch_valid h raw daysText remote d hdays hpos hne]
    show onDataEvents (Event.statusMsg _ _ :: notifyModules _) = _
    rw [show ∀ t f l, onDataEvents (Event.statusMsg t f :: l) = onDataEvents l
      from fun _ _ _ => rfl]
    exact notify_onDataEvents _

/-- Witness for C10 at a concrete two-ticker fetch: the series-map keys equal
the delivered ticker list. -/
theorem fetch_normalized_keys_invariant_witness :
    (onFetch ⟨[], [], [], [], []⟩ " aapl ,MSFT" "30"
        (fun _ => some [⟨"d", 1, 2⟩])).1.dataBySymbol.map Prod.fst =
      (onFetch ⟨[], [], [], [], []⟩ " aapl ,MSFT" "30"
        (fun _ => some [⟨"d", 1, 2⟩])).1.tickers := by
  exact (fetch_normalized_keys_invariant ⟨[], [], [], [], []⟩ " aapl ,MSFT" "30"
    (fun _ => some [⟨"d", 1, 2⟩]) 30 (by decide) (by decide) (by decide)).2.2.1

/-- Witness for C2 at the spec's example: reference 20000 at midnight and
latest 20400 give change 400 and changePercent 2. -/
theorem crypto_change_basis_witness :
    isCrypto ⟨"CRYPTOCURRENCY", some 20400, none⟩ "BTC-USD" = true ∧
    (computeQuote "BTC-USD" ⟨"CRYPTOCURRENCY", some 20400, none⟩
      (some ([100], [some 20000])) 50).chg = some 400 ∧
    (computeQuote "BTC-USD" ⟨"CRYPTOCURRENCY", some 20400, none⟩
      (some ([100], [some 20000])) 50).pct = some 2 := by
  have hc : isCrypto ⟨"CRYPTOCURRENCY", some 20400, none⟩ "BTC-USD" = true := by decide
  have h := ((crypto_change_basis.2.2.2 "BTC-USD" ⟨"CRYPTOCURRENCY", some 20400, none⟩
      (some ([100], [some 20000])) 50) hc).1 20000 20400 (by decide) (by decide) (by norm_num)
  refine ⟨hc, ?_, ?_⟩
  · rw [h.1]; norm_num
  · rw [h.2]; norm_num

end StockTool
